import Mathlib

/-!
# Verification of AbLM-Eval's per-position aggregation core

Shallow embedding of the per-position inference post-processing of
`ablm_eval` (files `tasks/per_position_inference/per_position_plot.py`
and `utils/load_model.py`), together with proofs of the spec's claims.

Modelling conventions:
* Python strings handled character-wise become `List Char`; per-token
  loss arrays become `List ℚ` (exact arithmetic in place of floats).
* Python code that can raise becomes `Option`/`Except`-valued; a `none`
  result models an uncaught exception (`IndexError`) aborting the run.
* `numpy`/`pandas` statistics (`mean`, `median`, `sem`) are defined from
  their documented algorithms over exact numbers; square roots live in `ℝ`.
-/

namespace AbLMEval

/-! ## Shared numeric helpers (numpy/pandas statistics) -/

/-- `np.mean` / mean of a list of numbers: sum divided by length
(the empty list, NaN in numpy, is mapped to `0`; every use in the
pipeline is on a non-empty list or guarded). -/
def qmean (l : List ℚ) : ℚ := l.sum / l.length

/-- `np.median` / `pandas` median: sort, then take the middle element
(odd length) or the mean of the two middle elements (even length). -/
def pmedian (l : List ℚ) : ℚ :=
  let s := l.insertionSort (· ≤ ·)
  let n := l.length
  if n % 2 = 1 then s.getD (n / 2) 0
  else (s.getD (n / 2 - 1) 0 + s.getD (n / 2) 0) / 2

/-- Python's slice `xs[a:b]` (half-open, clamped at the ends, total). -/
def pySlice (xs : List α) (a b : ℕ) : List α := (xs.take b).drop a

/-! ## Python `str.split(sep)` -/

/-- Worker for Python's `str.split(sep)` with a non-empty separator:
scan left to right, and whenever `sep` occurs at the current position,
close the accumulated part and continue after the separator.  The fuel
argument (instantiated with the string length, which bounds the number
of steps) makes the recursion structural. -/
def splitGoF (sep : List Char) : ℕ → List Char → List Char → List (List Char)
  | _, acc, [] => [acc.reverse]
  | 0, acc, s => [acc.reverse ++ s]
  | fuel + 1, acc, c :: rest =>
    if (c :: rest).take sep.length = sep then
      acc.reverse :: splitGoF sep fuel [] ((c :: rest).drop sep.length)
    else
      splitGoF sep fuel (c :: acc) rest

/-- Python `s.split(sep)`: every maximal separator-free part, in order.
Python raises `ValueError` on an empty separator (`none` here). -/
def pySplit (s sep : List Char) : Option (List (List Char)) :=
  if sep = [] then none else some (splitGoF sep s.length [] s)

/-! ## Data model (`ResultRow` of the spec; one parquet row) -/

/-- One input row of the concatenated results table. -/
structure Row where
  sequence : List Char
  separator : List Char
  loss : List ℚ
  prediction : List Char
  cdr_mask_heavy : List Char
  cdr_mask_light : List Char
  v_mutation_count_aa_heavy : ℕ
  v_mutation_count_aa_light : ℕ
  model : String
deriving DecidableEq

/-- The six per-row fields added by `_extract`. -/
structure ExtractedRow where
  heavy_loss : List ℚ
  light_loss : List ℚ
  heavy_pred : List Char
  light_pred : List Char
  heavy_sequence : List Char
  light_sequence : List Char
deriving DecidableEq

/-! ## `_extract` (chain splitter) -/

/-- The per-row body of `_extract`:
`hlen = len(cdr_mask_heavy)`, `seplen = separator.count("<")`,
heavy slices `[:hlen]`, light slices `[hlen+seplen:]`, and the sequence
split on the separator with parts `[0]` and `[1]`.  A `none` result
models the uncaught exception that aborts `_extract`: `IndexError` when
`split(sep)` yields fewer than two parts (separator absent from the
sequence), or `ValueError` from an empty separator. -/
def extractRow (r : Row) : Option ExtractedRow :=
  let hlen := r.cdr_mask_heavy.length
  let seplen := r.separator.count '<'
  match pySplit r.sequence r.separator with
  | none => none
  | some parts =>
    match parts with
    | p0 :: p1 :: _ =>
      some { heavy_loss := r.loss.take hlen
             light_loss := r.loss.drop (hlen + seplen)
             heavy_pred := r.prediction.take hlen
             light_pred := r.prediction.drop (hlen + seplen)
             heavy_sequence := p0
             light_sequence := p1 }
    | _ => none

/-- `_extract` over the whole table: any failing row aborts the batch
(the Python exception propagates out of the row loop). -/
def extract (rows : List Row) : Option (List ExtractedRow) :=
  rows.mapM extractRow

/-! ## `_region_processing` (segmenter and aggregator) -/

/-- The canonical region labels (`REGIONS` in the source). -/
def REGIONS : List String := ["FR1", "CDR1", "FR2", "CDR2", "FR3", "CDR3", "FR4"]

/-- The left-to-right scan of `_region_processing`: `prev` is
`prev_char`, `start` is `start_idx`, `i` the enumeration index.  A range
is closed whenever the label changes, and a final range is closed when
the input is exhausted. -/
def segLoop : Char → ℕ → ℕ → List Char → List (ℕ × ℕ)
  | _, start, i, [] => [(start, i)]
  | prev, start, i, c :: rest =>
    if c ≠ prev then (start, i) :: segLoop c i (i + 1) rest
    else segLoop prev start (i + 1) rest

/-- `mask_segments` of the source: the segmenter.  On an empty mask the
Python code raises `IndexError` at `prev_char = cdr_mask[0]` (`none`
here); otherwise the scan starts with `prev_char = cdr_mask[0]`,
`start_idx = 0`. -/
def mask_segments : List Char → Option (List (ℕ × ℕ))
  | [] => none
  | c :: t => some (segLoop c 0 0 (c :: t))

/-- Number of label changes between adjacent positions, starting from a
previous label `prev`. -/
def changes : Char → List Char → ℕ
  | _, [] => 0
  | prev, c :: t => (if c ≠ prev then 1 else 0) + changes c t

/-- Number of maximal runs of identical adjacent labels in a mask:
zero for the empty mask, otherwise one more than the number of adjacent
label changes. -/
def runCount : List Char → ℕ
  | [] => 0
  | c :: t => 1 + changes c t

/-- One aggregate record per accepted `(row, chain, region)` triple. -/
structure RegionRecord where
  region : String
  model : String
  chain : String
  mutated : Bool
  loss : List ℚ
  mean_loss : ℚ
  median_loss : ℚ
  accuracy : ℚ
deriving DecidableEq

/-- `np.mean([p == t for p, t in zip(pred, seq)])`: the fraction of
aligned positions where the predicted residue equals the true one. -/
def npBoolMean (p t : List Char) : ℚ :=
  qmean ((p.zip t).map fun pt => if pt.1 = pt.2 then (1 : ℚ) else 0)

/-- The per-chain body of `_region_processing`: segment the chain's
mask, skip the chain (`some []`, no records, no error) unless exactly
`len(REGIONS) = 7` ranges were found, and otherwise emit one record per
region by zipping the ranges against `REGIONS` in order.  `none` models
the `IndexError` the segmenter raises on an empty mask. -/
def chainRecords (model chain : String) (mutated : Bool)
    (loss : List ℚ) (pred seq cdr_mask : List Char) :
    Option (List RegionRecord) :=
  match mask_segments cdr_mask with
  | none => none
  | some segs =>
    if segs.length ≠ REGIONS.length then some []
    else
      some ((REGIONS.zip segs).map fun rs =>
        { region := rs.1
          model := model
          chain := chain
          mutated := mutated
          loss := pySlice loss rs.2.1 rs.2.2
          mean_loss := qmean (pySlice loss rs.2.1 rs.2.2)
          median_loss := pmedian (pySlice loss rs.2.1 rs.2.2)
          accuracy := npBoolMean (pySlice pred rs.2.1 rs.2.2)
            (pySlice seq rs.2.1 rs.2.2) })

/-! ## `_summary_df` (summary builder, per-group cell) -/

/-- Sample variance with Bessel's correction, the default
(`ddof = 1`) used by `pandas.DataFrame.sem`:
`Σ (x - mean)² / (n - 1)`. -/
def sampleVar (l : List ℚ) : ℚ :=
  (l.map fun x => (x - qmean l) ^ 2).sum / ((l.length : ℚ) - 1)

/-- Variance as the spec's words describe it, with the *population*
standard deviation (`ddof = 0`): `Σ (x - mean)² / n`. -/
def popVar (l : List ℚ) : ℚ :=
  (l.map fun x => (x - qmean l) ^ 2).sum / (l.length : ℚ)

/-- `pandas` `groupby(...).sem()` on one group: sample standard
deviation (`ddof = 1`) divided by the square root of the group size.
`none` models the NaN pandas produces for groups of size ≤ 1
(`pd.notna(sem)` is false there). -/
noncomputable def pdSem (l : List ℚ) : Option ℝ :=
  if l.length ≤ 1 then none
  else some (Real.sqrt ((sampleVar l : ℚ) : ℝ) / Real.sqrt (l.length : ℝ))

/-- Modelled from the spec: the standard error as §4.4's words define
it, population standard deviation divided by the square root of the
group size, undefined for groups of size ≤ 1. -/
noncomputable def specSem (l : List ℚ) : Option ℝ :=
  if l.length ≤ 1 then none
  else some (Real.sqrt ((popVar l : ℚ) : ℝ) / Real.sqrt (l.length : ℝ))

/-- Left-pad the fractional part to four digits. -/
def pad4 (n : ℕ) : String :=
  if n < 10 then "000" ++ toString n
  else if n < 100 then "00" ++ toString n
  else if n < 1000 then "0" ++ toString n
  else toString n

/-- Render an integer number of ten-thousandths as a fixed-point
decimal string with four fractional digits. -/
def scaledToString (r : ℤ) : String :=
  (if r < 0 then "-" else "") ++
    toString (r.natAbs / 10000) ++ "." ++ pad4 (r.natAbs % 10000)

open Classical in
/-- Round `x * 10⁴` to the nearest integer, ties to even — the rounding
of Python's fixed-point format specifier. -/
noncomputable def round4 (x : ℝ) : ℤ :=
  if x * 10000 + 1 / 2 = (⌊x * 10000 + 1 / 2⌋ : ℝ) ∧ ⌊x * 10000 + 1 / 2⌋ % 2 = 1
  then ⌊x * 10000 + 1 / 2⌋ - 1 else ⌊x * 10000 + 1 / 2⌋

/-- Python's `f"{x:.4f}"`: fixed-point with four fractional digits. -/
noncomputable def fmt4 (x : ℝ) : String := scaledToString (round4 x)

/-- `format_value` of the source: `f"{mean:.4f} (± {sem:.4f})"` when the
standard error is defined (`pd.notna`), the bare median string
otherwise. -/
noncomputable def format_value (mean : ℚ) (sem : Option ℝ) : String :=
  match sem with
  | some s => fmt4 (mean : ℝ) ++ " (± " ++ fmt4 s ++ ")"
  | none => fmt4 (mean : ℝ)

/-- One cell of the summary table: a `(model, mutated)` group's values
for one retained numeric field are reduced to
`format_value(median, sem)`, with the `pandas` group median and group
standard error. -/
noncomputable def summaryCell (xs : List ℚ) : String :=
  format_value (pmedian xs) (pdSem xs)

/-- Modelled from the spec: the same cell with §4.4's population
standard error in place of the pandas one. -/
noncomputable def specSummaryCell (xs : List ℚ) : String :=
  format_value (pmedian xs) (specSem xs)

/-! ## `load_model_and_tokenizer` (`utils/load_model.py`) -/

/-- Abstract stand-in for a loaded Hugging Face tokenizer. -/
structure Tokenizer where
  path : String
deriving DecidableEq

/-- Abstract stand-in for the two model classes the loader knows:
`AutoModelForMaskedLM` and `AutoModelForSequenceClassification`. -/
inductive Model where
  | maskedLM : String → Model
  | seqClassification : String → Model
deriving DecidableEq

/-- `AutoTokenizer.from_pretrained`, abstracted to its argument. -/
def AutoTokenizer_from_pretrained (path : String) : Tokenizer := ⟨path⟩

/-- `load_model_and_tokenizer`: load the tokenizer from
`tokenizer_path or model_path`, dispatch on the task kind, and raise
`ValueError(f"Unsupported task: {task}")` for anything other than
`"mlm"` or `"classification"`. -/
def load_model_and_tokenizer (model_path task : String)
    (tokenizer_path : Option String) : Except String (Model × Tokenizer) :=
  let tokenizer := AutoTokenizer_from_pretrained (tokenizer_path.getD model_path)
  if task = "mlm" then .ok (.maskedLM model_path, tokenizer)
  else if task = "classification" then .ok (.seqClassification model_path, tokenizer)
  else .error ("Unsupported task: " ++ task)

/-! ## Concrete sample rows (used to instantiate the theorems) -/

/-- A well-formed sample row: heavy mask of length 10, separator
`"<cls>"` (one `<`), loss and prediction arrays of length 25. -/
def sampleRow : Row where
  sequence := "QVQLVQSGAE<cls>DIQMTQSPSSLSAS".toList
  separator := "<cls>".toList
  loss := [0, 1, 2, 3, 4, 5, 6, 7, 8, 9, 10, 11, 12,
    13, 14, 15, 16, 17, 18, 19, 20, 21, 22, 23, 24]
  prediction := "ABCDEFGHIJKLMNOPQRSTUVWXY".toList
  cdr_mask_heavy := "1111222333".toList
  cdr_mask_light := "11112223334444".toList
  v_mutation_count_aa_heavy := 0
  v_mutation_count_aa_light := 1
  model := "balm"

/-- What `_extract` computes on `sampleRow`. -/
def sampleExt : ExtractedRow where
  heavy_loss := [0, 1, 2, 3, 4, 5, 6, 7, 8, 9]
  light_loss := [11, 12, 13, 14, 15, 16, 17, 18, 19, 20, 21, 22, 23, 24]
  heavy_pred := "ABCDEFGHIJ".toList
  light_pred := "LMNOPQRSTUVWXY".toList
  heavy_sequence := "QVQLVQSGAE".toList
  light_sequence := "DIQMTQSPSSLSAS".toList

/-- A row whose arrays are shorter than `hlen + seplen`. -/
def shortRow : Row where
  sequence := "AB<cls>CD".toList
  separator := "<cls>".toList
  loss := [1, 2]
  prediction := "AB".toList
  cdr_mask_heavy := "11122".toList
  cdr_mask_light := "12".toList
  v_mutation_count_aa_heavy := 0
  v_mutation_count_aa_light := 0
  model := "balm"

/-- A row whose sequence does not contain the separator. -/
def noSepRow : Row where
  sequence := "ABC".toList
  separator := "<cls>".toList
  loss := []
  prediction := []
  cdr_mask_heavy := []
  cdr_mask_light := []
  v_mutation_count_aa_heavy := 0
  v_mutation_count_aa_light := 0
  model := "balm"

/-! ## Interval chains: the shape of the segmenter's output -/

/-- `IsChain a b segs`: `segs` is a gap-free sequence of non-empty
half-open ranges `[s, e)` that tile `[a, b)` from left to right. -/
def IsChain : ℕ → ℕ → List (ℕ × ℕ) → Prop
  | a, b, [] => a = b
  | a, b, p :: rest => p.1 = a ∧ a < p.2 ∧ IsChain p.2 b rest

/-! ## Theorems -/

theorem segLoop_length (l : List Char) : ∀ (prev : Char) (start i : ℕ),
    (segLoop prev start i l).length = 1 + changes prev l := by
  induction l with
  | nil => intro prev start i; rfl
  | cons c t ih =>
    intro prev start i
    by_cases h : c = prev
    · subst h
      simp [segLoop, changes, ih]
    · simp [segLoop, changes, h, ih]
      omega

theorem segLoop_chain (l : List Char) : ∀ (prev : Char) (start i : ℕ),
    start < i → IsChain start (i + l.length) (segLoop prev start i l) := by
  induction l with
  | nil =>
    intro prev start i h
    exact ⟨rfl, h, rfl⟩
  | cons c t ih =>
    intro prev start i h
    rw [show i + (c :: t).length = (i + 1) + t.length by
      rw [List.length_cons]; omega]
    by_cases hc : c = prev
    · subst hc
      simp only [segLoop, ne_eq, not_true_eq_false, ite_false, if_neg]
      exact ih c start (i + 1) (Nat.lt_succ_of_lt h)
    · simp only [segLoop, ne_eq, hc, not_false_eq_true, ite_true, if_pos]
      exact ⟨rfl, h, ih c i (i + 1) (Nat.lt_succ_self i)⟩

theorem mask_segments_cons (c : Char) (t : List Char) :
    mask_segments (c :: t) = some (segLoop c 0 1 t) := by
  simp [mask_segments, segLoop]

theorem mask_segments_length {m : List Char} {segs : List (ℕ × ℕ)}
    (h : mask_segments m = some segs) : segs.length = runCount m := by
  cases m with
  | nil => simp [mask_segments] at h
  | cons c t =>
    rw [mask_segments_cons] at h
    cases h
    rw [segLoop_length, runCount]

theorem mask_segments_chain {m : List Char} {segs : List (ℕ × ℕ)}
    (h : mask_segments m = some segs) : IsChain 0 m.length segs := by
  cases m with
  | nil => simp [mask_segments] at h
  | cons c t =>
    rw [mask_segments_cons] at h
    cases h
    have := segLoop_chain t c 0 1 Nat.one_pos
    simpa [List.length_cons, Nat.add_comm] using this

theorem IsChain.le : ∀ {l : List (ℕ × ℕ)} {a b : ℕ}, IsChain a b l → a ≤ b := by
  intro l
  induction l with
  | nil =>
    intro a b h
    exact Nat.le_of_eq h
  | cons p rest ih =>
    intro a b h
    obtain ⟨h1, h2, h3⟩ := h
    exact Nat.le_trans (Nat.le_of_lt h2) (ih h3)

theorem IsChain.bounds : ∀ {l : List (ℕ × ℕ)} {a b : ℕ}, IsChain a b l →
    ∀ p ∈ l, a ≤ p.1 ∧ p.1 < p.2 ∧ p.2 ≤ b := by
  intro l
  induction l with
  | nil =>
    intro a b _ p hp
    simp at hp
  | cons q rest ih =>
    intro a b h p hp
    obtain ⟨h1, h2, h3⟩ := h
    rcases List.mem_cons.1 hp with rfl | hp
    · exact ⟨Nat.le_of_eq h1.symm, h1 ▸ h2, h3.le⟩
    · obtain ⟨ha, hb, hc⟩ := ih h3 p hp
      exact ⟨Nat.le_trans (Nat.le_of_lt h2) ha, hb, hc⟩

theorem IsChain.pairwise : ∀ {l : List (ℕ × ℕ)} {a b : ℕ}, IsChain a b l →
    l.Pairwise (fun p q => p.2 ≤ q.1) := by
  intro l
  induction l with
  | nil =>
    intro a b _
    exact List.Pairwise.nil
  | cons q rest ih =>
    intro a b h
    obtain ⟨h1, h2, h3⟩ := h
    exact List.Pairwise.cons (fun p hp => (h3.bounds p hp).1) (ih h3)

theorem IsChain.cover : ∀ {l : List (ℕ × ℕ)} {a b : ℕ}, IsChain a b l →
    ∀ k, (a ≤ k ∧ k < b) ↔ ∃ p ∈ l, p.1 ≤ k ∧ k < p.2 := by
  intro l
  induction l with
  | nil =>
    intro a b h k
    subst h
    simp
  | cons q rest ih =>
    intro a b h k
    obtain ⟨h1, h2, h3⟩ := h
    constructor
    · rintro ⟨hak, hkb⟩
      by_cases hk : k < q.2
      · exact ⟨q, List.mem_cons_self q rest, h1 ▸ hak, hk⟩
      · obtain ⟨p, hp, hps⟩ := (ih h3 k).1 ⟨Nat.le_of_not_lt hk, hkb⟩
        exact ⟨p, List.mem_cons_of_mem q hp, hps⟩
    · rintro ⟨p, hp, hp1, hp2⟩
      rcases List.mem_cons.1 hp with rfl | hp
      · exact ⟨h1 ▸ hp1, Nat.lt_of_lt_of_le hp2 h3.le⟩
      · obtain ⟨hq2, hkb⟩ := (ih h3 k).2 ⟨p, hp, hp1, hp2⟩
        exact ⟨Nat.le_trans (Nat.le_of_lt h2) hq2, hkb⟩

theorem slice_glue {α : Type} (xs : List α) (a e : ℕ) (h1 : a ≤ e)
    (h2 : e ≤ xs.length) :
    (xs.take e).drop a ++ xs.drop e = xs.drop a := by
  conv_rhs => rw [← List.take_append_drop e xs]
  rw [List.drop_append_of_le_length (by simp [List.length_take]; omega)]

theorem IsChain.flatten_slices {α : Type} (xs : List α) :
    ∀ {l : List (ℕ × ℕ)} {a b : ℕ}, IsChain a b l → b = xs.length →
    (l.map fun p => pySlice xs p.1 p.2).flatten = xs.drop a := by
  intro l
  induction l with
  | nil =>
    intro a b h hb
    subst hb
    subst h
    simp [List.drop_length]
  | cons q rest ih =>
    intro a b h hb
    obtain ⟨h1, h2, h3⟩ := h
    have he : q.2 ≤ xs.length := hb ▸ h3.le
    simp only [List.map_cons, List.flatten_cons, ih h3 hb]
    rw [pySlice, h1]
    exact slice_glue xs a q.2 (Nat.le_of_lt (h1 ▸ h2)) he

theorem runCount_ne_nil {m : List Char} (h : runCount m ≠ 0) : m ≠ [] := by
  intro hm
  subst hm
  exact h rfl

/-- Unfolding of `chainRecords` for an accepted chain (7 segments). -/
theorem chainRecords_of_seven {cdr_mask : List Char} {segs : List (ℕ × ℕ)}
    (h : mask_segments cdr_mask = some segs) (h7 : segs.length = 7)
    (model chain : String) (mutated : Bool) (loss : List ℚ)
    (pred seq : List Char) :
    chainRecords model chain mutated loss pred seq cdr_mask =
      some ((REGIONS.zip segs).map fun rs =>
        { region := rs.1
          model := model
          chain := chain
          mutated := mutated
          loss := pySlice loss rs.2.1 rs.2.2
          mean_loss := qmean (pySlice loss rs.2.1 rs.2.2)
          median_loss := pmedian (pySlice loss rs.2.1 rs.2.2)
          accuracy := npBoolMean (pySlice pred rs.2.1 rs.2.2)
            (pySlice seq rs.2.1 rs.2.2) }) := by
  simp only [chainRecords, h]
  rw [if_neg]
  simp [REGIONS, h7]

/-- C1: for every mask made of exactly 7 maximal runs of identical
adjacent labels, the single left-to-right scan returns exactly 7
half-open ranges that are each non-empty, pairwise non-overlapping and
in ascending order, and whose union is the full span
`[0, mask length)`. -/
theorem segmenter_seven_runs (cdr_mask : List Char)
    (h7 : runCount cdr_mask = 7) :
    ∃ segs, mask_segments cdr_mask = some segs ∧ segs.length = 7 ∧
      (∀ p ∈ segs, p.1 < p.2) ∧
      segs.Pairwise (fun p q => p.2 ≤ q.1) ∧
      ∀ k, k < cdr_mask.length ↔ ∃ p ∈ segs, p.1 ≤ k ∧ k < p.2 := by
  have hne : cdr_mask ≠ [] := runCount_ne_nil (by omega)
  obtain ⟨c, t, rfl⟩ := List.exists_cons_of_ne_nil hne
  refine ⟨segLoop c 0 1 t, mask_segments_cons c t, ?_, ?_, ?_, ?_⟩
  · rw [mask_segments_length (mask_segments_cons c t), h7]
  · intro p hp
    exact ((mask_segments_chain (mask_segments_cons c t)).bounds p hp).2.1
  · exact (mask_segments_chain (mask_segments_cons c t)).pairwise
  · intro k
    have := (mask_segments_chain (mask_segments_cons c t)).cover k
    simpa using this

/-- C1 witness: a concrete 7-run mask. -/
theorem segmenter_seven_runs_witness :
    ∃ segs, mask_segments ['1', '2', '3', '4', '5', '6', '7'] = some segs ∧
      segs.length = 7 ∧
      (∀ p ∈ segs, p.1 < p.2) ∧
      segs.Pairwise (fun p q => p.2 ≤ q.1) ∧
      ∀ k, k < (['1', '2', '3', '4', '5', '6', '7'] : List Char).length ↔
        ∃ p ∈ segs, p.1 ≤ k ∧ k < p.2 :=
  segmenter_seven_runs _ (by decide)

/-- C2 counterexample: the claim extends to "masks with zero runs", but
on the empty mask (zero runs) the code raises `IndexError` at
`prev_char = cdr_mask[0]` (modelled as `none`) instead of emitting zero
records without error. -/
theorem chain_empty_mask_raises :
    chainRecords "balm" "heavy" false [] [] [] [] = none ∧
      chainRecords "balm" "heavy" false [] [] [] [] ≠ some [] := by
  constructor
  · rfl
  · intro h
    simp [chainRecords, mask_segments] at h

/-- C2 (amended): for every chain whose NON-EMPTY mask decomposes into
a number of contiguous runs different from 7, the segmenter/aggregator
path produces zero RegionRecords for that chain, emits no partial
output, and does not raise; an empty mask instead raises `IndexError`
(see `chain_empty_mask_raises`). -/
theorem malformed_chain_skipped (model chain : String) (mutated : Bool)
    (loss : List ℚ) (pred seq cdr_mask : List Char)
    (hne : cdr_mask ≠ []) (h7 : runCount cdr_mask ≠ 7) :
    chainRecords model chain mutated loss pred seq cdr_mask = some [] := by
  obtain ⟨c, t, rfl⟩ := List.exists_cons_of_ne_nil hne
  simp only [chainRecords, mask_segments_cons]
  rw [if_pos]
  rw [mask_segments_length (mask_segments_cons c t)]
  simpa [REGIONS] using h7

/-- C2 witness: a one-run mask produces zero records and no error. -/
theorem malformed_chain_skipped_witness :
    chainRecords "balm" "heavy" false [1, 2] ['A', 'B'] ['A', 'C']
      ['x', 'x'] = some [] :=
  malformed_chain_skipped "balm" "heavy" false [1, 2] ['A', 'B'] ['A', 'C']
    ['x', 'x'] (by decide) (by decide)

/-- A 7-run mask is segmented into 7 ranges. -/
theorem mask_segments_of_runCount {cdr_mask : List Char}
    (h7 : runCount cdr_mask = 7) :
    ∃ segs, mask_segments cdr_mask = some segs ∧ segs.length = 7 := by
  obtain ⟨c, t, rfl⟩ :=
    List.exists_cons_of_ne_nil (runCount_ne_nil (by rw [h7]; decide))
  exact ⟨segLoop c 0 1 t, mask_segments_cons c t,
    (mask_segments_length (mask_segments_cons c t)).trans h7⟩

/-- C5: for every accepted chain (mask with exactly 7 runs and a chain
loss array of the mask's length), concatenating the 7 per-region loss
slices in canonical region order reconstructs the chain's full loss
array exactly. -/
theorem region_loss_roundtrip (model chain : String) (mutated : Bool)
    (loss : List ℚ) (pred seq cdr_mask : List Char)
    (h7 : runCount cdr_mask = 7) (hlen : loss.length = cdr_mask.length) :
    ∃ recs, chainRecords model chain mutated loss pred seq cdr_mask =
      some recs ∧ (recs.map RegionRecord.loss).flatten = loss := by
  obtain ⟨segs, hsegs, hsl⟩ := mask_segments_of_runCount h7
  refine ⟨_, chainRecords_of_seven hsegs hsl model chain mutated loss pred seq, ?_⟩
  rw [List.map_map]
  have hmap : (REGIONS.zip segs).map
      ((fun rs : String × ℕ × ℕ => pySlice loss rs.2.1 rs.2.2)) =
      segs.map fun p => pySlice loss p.1 p.2 := by
    have hsnd := List.map_snd_zip REGIONS segs (by simp [REGIONS, hsl])
    conv_rhs => rw [← hsnd, List.map_map]
    rfl
  have : (RegionRecord.loss ∘ fun rs : String × ℕ × ℕ =>
      { region := rs.1, model := model, chain := chain, mutated := mutated,
        loss := pySlice loss rs.2.1 rs.2.2,
        mean_loss := qmean (pySlice loss rs.2.1 rs.2.2),
        median_loss := pmedian (pySlice loss rs.2.1 rs.2.2),
        accuracy := npBoolMean (pySlice pred rs.2.1 rs.2.2)
          (pySlice seq rs.2.1 rs.2.2) : RegionRecord }) =
      fun rs : String × ℕ × ℕ => pySlice loss rs.2.1 rs.2.2 := rfl
  rw [this, hmap]
  have := (mask_segments_chain hsegs).flatten_slices loss hlen.symm
  simpa using this

/-- C5 witness: an 8-position mask with 7 runs. -/
theorem region_loss_roundtrip_witness :
    ∃ recs, chainRecords "balm" "heavy" true [0, 1, 2, 3, 4, 5, 6, 7]
      ['A'] ['A'] ['a', 'a', 'b', 'c', 'd', 'e', 'f', 'g'] = some recs ∧
      (recs.map RegionRecord.loss).flatten = [0, 1, 2, 3, 4, 5, 6, 7] :=
  region_loss_roundtrip "balm" "heavy" true [0, 1, 2, 3, 4, 5, 6, 7]
    ['A'] ['A'] ['a', 'a', 'b', 'c', 'd', 'e', 'f', 'g'] (by decide) (by decide)

/-- C7: acceptance and labelling are purely positional: any mask with
exactly 7 contiguous runs is accepted regardless of its label values,
and the 7 runs receive the canonical labels
`["FR1","CDR1","FR2","CDR2","FR3","CDR3","FR4"]` in order by position. -/
theorem region_labels_positional (model chain : String) (mutated : Bool)
    (loss : List ℚ) (pred seq cdr_mask : List Char)
    (h7 : runCount cdr_mask = 7) :
    ∃ recs, chainRecords model chain mutated loss pred seq cdr_mask =
      some recs ∧ recs.map RegionRecord.region = REGIONS := by
  obtain ⟨segs, hsegs, hsl⟩ := mask_segments_of_runCount h7
  refine ⟨_, chainRecords_of_seven hsegs hsl model chain mutated loss pred seq, ?_⟩
  rw [List.map_map]
  have : (RegionRecord.region ∘ fun rs : String × ℕ × ℕ =>
      { region := rs.1, model := model, chain := chain, mutated := mutated,
        loss := pySlice loss rs.2.1 rs.2.2,
        mean_loss := qmean (pySlice loss rs.2.1 rs.2.2),
        median_loss := pmedian (pySlice loss rs.2.1 rs.2.2),
        accuracy := npBoolMean (pySlice pred rs.2.1 rs.2.2)
          (pySlice seq rs.2.1 rs.2.2) : RegionRecord }) =
      (Prod.fst : String × ℕ × ℕ → String) := rfl
  rw [this]
  exact List.map_fst_zip REGIONS segs (by simp [REGIONS, hsl])

/-- C7 witness: the mask `"FFFCCCFFFCCCFFFCCCFFF"` (runs
`F,C,F,C,F,C,F`, not 7 distinct labels) is accepted and labelled
canonically. -/
theorem region_labels_positional_witness :
    ∃ recs, chainRecords "balm" "heavy" false [] [] []
      "FFFCCCFFFCCCFFFCCCFFF".toList = some recs ∧
      recs.map RegionRecord.region = REGIONS :=
  region_labels_positional "balm" "heavy" false [] [] []
    "FFFCCCFFFCCCFFFCCCFFF".toList (by decide)

theorem sum_bounds_of_unit (l : List ℚ) (h : ∀ x ∈ l, x = 0 ∨ x = 1) :
    0 ≤ l.sum ∧ l.sum ≤ l.length := by
  induction l with
  | nil => simp
  | cons a t ih =>
    obtain ⟨h1, h2⟩ := ih fun x hx => h x (List.mem_cons_of_mem a hx)
    rcases h a (List.mem_cons_self a t) with rfl | rfl <;>
      · simp only [List.sum_cons, List.length_cons]
        constructor <;> push_cast <;> linarith

theorem npBoolMean_unit (p t : List Char) :
    0 ≤ npBoolMean p t ∧ npBoolMean p t ≤ 1 := by
  unfold npBoolMean qmean
  set l := (p.zip t).map fun pt => if pt.1 = pt.2 then (1 : ℚ) else 0 with hl
  have hb := sum_bounds_of_unit l fun x hx => by
    rw [hl] at hx
    obtain ⟨pt, _, hpt⟩ := List.mem_map.1 hx
    by_cases hc : pt.1 = pt.2
    · right; rw [← hpt, if_pos hc]
    · left; rw [← hpt, if_neg hc]
  rcases Nat.eq_zero_or_pos l.length with h0 | hpos
  · rw [List.length_eq_zero.1 h0]
    simp
  · have hlen : (0 : ℚ) < l.length := by exact_mod_cast hpos
    constructor
    · exact div_nonneg hb.1 (le_of_lt hlen)
    · rw [div_le_one hlen]
      exact hb.2

theorem zip_self {α : Type} (l : List α) : l.zip l = l.map fun x => (x, x) := by
  induction l with
  | nil => rfl
  | cons a s ih => simp [List.zip_cons_cons, ih]

theorem sum_map_ite_count (l : List (Char × Char)) :
    (l.map fun pt => if pt.1 = pt.2 then (1 : ℚ) else 0).sum =
      (l.countP fun pt => decide (pt.1 = pt.2) : ℕ) := by
  induction l with
  | nil => simp
  | cons a s ih =>
    by_cases hc : a.1 = a.2
    · simp [List.countP_cons, hc, ih]
      ring
    · simp [List.countP_cons, hc, ih]

/-- C6: the emitted accuracy of a region record is the fraction of
aligned positions where the predicted residue equals the true residue:
it always lies in `[0, 1]`; for aligned equal-length slices it equals
the number of matching positions divided by the slice length, equals
`1` when the prediction matches the sequence everywhere (non-empty
slice), and equals `0` when no position matches. -/
theorem region_accuracy (model chain : String) (mutated : Bool)
    (loss : List ℚ) (pred seq cdr_mask : List Char)
    (recs : List RegionRecord)
    (hrecs : chainRecords model chain mutated loss pred seq cdr_mask = some recs) :
    (∀ rec ∈ recs, 0 ≤ rec.accuracy ∧ rec.accuracy ≤ 1) ∧
      ∀ p t : List Char, p.length = t.length →
        (npBoolMean p t =
          (((p.zip t).countP fun pt => decide (pt.1 = pt.2)) : ℕ) / (p.length : ℚ)) ∧
        (p ≠ [] → p = t → npBoolMean p t = 1) ∧
        ((∀ pt ∈ p.zip t, pt.1 ≠ pt.2) → npBoolMean p t = 0) := by
  constructor
  · intro rec hrec
    cases hm : mask_segments cdr_mask with
    | none =>
      simp only [chainRecords, hm] at hrecs
      exact Option.noConfusion hrecs
    | some segs =>
      simp only [chainRecords, hm] at hrecs
      by_cases h7 : segs.length ≠ REGIONS.length
      · rw [if_pos h7] at hrecs
        cases hrecs
        simp at hrec
      · rw [if_neg h7] at hrecs
        cases hrecs
        obtain ⟨rs, _, hrs⟩ := List.mem_map.1 hrec
        have : rec.accuracy = npBoolMean (pySlice pred rs.2.1 rs.2.2)
            (pySlice seq rs.2.1 rs.2.2) := by rw [← hrs]
        rw [this]
        exact npBoolMean_unit _ _
  · intro p t hlen
    refine ⟨?_, ?_, ?_⟩
    · unfold npBoolMean qmean
      rw [sum_map_ite_count, List.length_map, List.length_zip, hlen, min_self]
    · intro hp hpt
      subst hpt
      unfold npBoolMean qmean
      rw [zip_self, List.map_map]
      have hone : ((fun pt : Char × Char => if pt.1 = pt.2 then (1 : ℚ) else 0) ∘
          fun x => (x, x)) = fun _ => (1 : ℚ) := by
        funext x
        simp
      rw [hone]
      have hne : (0 : ℚ) < (p.map fun _ => (1 : ℚ)).length := by
        simp only [List.length_map]
        exact_mod_cast List.length_pos.2 hp
      rw [div_eq_one_iff_eq (ne_of_gt hne)]
      simp
    · intro hno
      unfold npBoolMean qmean
      have : ((p.zip t).map fun pt => if pt.1 = pt.2 then (1 : ℚ) else 0).sum = 0 :=
        List.sum_eq_zero fun x hx => by
          obtain ⟨pt, hpt, hx⟩ := List.mem_map.1 hx
          rw [← hx, if_neg (hno pt hpt)]
      rw [this, zero_div]

/-- C6 witness: a fully matching two-residue region has accuracy 1. -/
theorem region_accuracy_witness :
    npBoolMean ['A', 'C'] ['A', 'C'] = 1 := by
  obtain ⟨segs, hsegs, hsl⟩ :=
    mask_segments_of_runCount
      (show runCount ['x', 'y', 'x', 'y', 'x', 'y', 'x'] = 7 by decide)
  exact ((region_accuracy "balm" "heavy" false [1, 2] ['A', 'C'] ['A', 'C']
      ['x', 'y', 'x', 'y', 'x', 'y', 'x'] _
      (chainRecords_of_seven hsegs hsl "balm" "heavy" false [1, 2]
        ['A', 'C'] ['A', 'C'])).2
    ['A', 'C'] ['A', 'C'] rfl).2.1 (by decide) rfl

/-- Unfolding of `_extract`'s row body when the sequence splits into at
least two parts. -/
theorem extractRow_eq {r : Row} {p0 p1 : List Char} {ps : List (List Char)}
    (h : pySplit r.sequence r.separator = some (p0 :: p1 :: ps)) :
    extractRow r = some
      { heavy_loss := r.loss.take r.cdr_mask_heavy.length
        light_loss :=
          r.loss.drop (r.cdr_mask_heavy.length + r.separator.count '<')
        heavy_pred := r.prediction.take r.cdr_mask_heavy.length
        light_pred :=
          r.prediction.drop (r.cdr_mask_heavy.length + r.separator.count '<')
        heavy_sequence := p0
        light_sequence := p1 } := by
  simp only [extractRow, h]

/-- C4: the chain splitter produces heavy slices `[0:hlen)` and light
slices `[hlen+seplen:)` of the loss and prediction arrays, where `hlen`
is the heavy mask length and `seplen` the number of `<` characters in
the separator, and splits the sequence on the separator into a heavy
and a light part (characterised element-wise). -/
theorem extract_slice_spec (r : Row) (e : ExtractedRow)
    (h : extractRow r = some e) :
    e.heavy_loss.length = min r.cdr_mask_heavy.length r.loss.length ∧
    (∀ i, i < r.cdr_mask_heavy.length → e.heavy_loss[i]? = r.loss[i]?) ∧
    e.light_loss.length =
      r.loss.length - (r.cdr_mask_heavy.length + r.separator.count '<') ∧
    (∀ i, e.light_loss[i]? =
      r.loss[r.cdr_mask_heavy.length + r.separator.count '<' + i]?) ∧
    e.heavy_pred.length = min r.cdr_mask_heavy.length r.prediction.length ∧
    (∀ i, i < r.cdr_mask_heavy.length → e.heavy_pred[i]? = r.prediction[i]?) ∧
    e.light_pred.length =
      r.prediction.length - (r.cdr_mask_heavy.length + r.separator.count '<') ∧
    (∀ i, e.light_pred[i]? =
      r.prediction[r.cdr_mask_heavy.length + r.separator.count '<' + i]?) ∧
    ∃ ps, pySplit r.sequence r.separator =
      some (e.heavy_sequence :: e.light_sequence :: ps) := by
  cases hps : pySplit r.sequence r.separator with
  | none =>
    simp only [extractRow, hps] at h
    exact Option.noConfusion h
  | some parts =>
    rcases parts with _ | ⟨p0, _ | ⟨p1, ps⟩⟩
    · simp only [extractRow, hps] at h
      exact Option.noConfusion h
    · simp only [extractRow, hps] at h
      exact Option.noConfusion h
    · rw [extractRow_eq hps] at h
      cases h
      refine ⟨List.length_take _ _, ?_, List.length_drop _ _, ?_,
        List.length_take _ _, ?_, List.length_drop _ _, ?_, ps, ?_⟩
      · intro i hi
        rw [List.getElem?_take, if_pos hi]
      · intro i
        exact List.getElem?_drop _ _ i
      · intro i hi
        rw [List.getElem?_take, if_pos hi]
      · intro i
        exact List.getElem?_drop _ _ i
      · simp [hps]

/-- C4 witness: `hlen = 10`, separator `"<cls>"` (`seplen = 1`), loss
array of length 25: heavy loss is `loss[0:10]` and light loss is
`loss[11:25]`, of length 14. -/
theorem extract_slice_spec_witness :
    extractRow sampleRow = some sampleExt ∧
      sampleExt.heavy_loss = sampleRow.loss.take 10 ∧
      sampleExt.light_loss.length = 14 := by
  have h : extractRow sampleRow = some sampleExt := by decide
  have hs := extract_slice_spec sampleRow sampleExt h
  refine ⟨h, by decide, ?_⟩
  have := hs.2.2.1
  simpa using this

/-- C8: slicing past the end of the arrays is total: whenever the
separator occurs in the sequence, the splitter succeeds, and if
`hlen + seplen` is at least the length of the loss (resp. prediction)
array the light-chain slice is empty rather than an error. -/
theorem light_slice_total (r : Row) (p0 p1 : List Char)
    (ps : List (List Char))
    (hsplit : pySplit r.sequence r.separator = some (p0 :: p1 :: ps)) :
    ∃ e, extractRow r = some e ∧
      (r.loss.length ≤ r.cdr_mask_heavy.length + r.separator.count '<' →
        e.light_loss = []) ∧
      (r.prediction.length ≤ r.cdr_mask_heavy.length + r.separator.count '<' →
        e.light_pred = []) := by
  refine ⟨_, extractRow_eq hsplit, ?_, ?_⟩
  · intro hle
    exact List.drop_eq_nil_iff.2 hle
  · intro hle
    exact List.drop_eq_nil_iff.2 hle

/-- C8 witness: a row with `hlen + seplen = 6` but arrays of length 2
splits without error and gets empty light slices. -/
theorem light_slice_total_witness :
    ∃ e, extractRow shortRow = some e ∧ e.light_loss = [] ∧
      e.light_pred = [] := by
  obtain ⟨e, he, h1, h2⟩ :=
    light_slice_total shortRow "AB".toList "CD".toList [] (by decide)
  exact ⟨e, he, h1 (by decide), h2 (by decide)⟩

/-- When the separator occurs nowhere, the scan never splits and the
whole input comes back as a single part. -/
theorem splitGoF_no_occurrence (sep : List Char) :
    ∀ (fuel : ℕ) (s acc : List Char),
      (∀ i, (s.drop i).take sep.length ≠ sep) →
      splitGoF sep fuel acc s = [acc.reverse ++ s] := by
  intro fuel
  induction fuel with
  | zero =>
    intro s acc _
    cases s with
    | nil => simp [splitGoF]
    | cons c rest => rfl
  | succ fuel ih =>
    intro s acc h
    cases s with
    | nil => simp [splitGoF]
    | cons c rest =>
      rw [splitGoF, if_neg (by simpa using h 0)]
      rw [ih rest (c :: acc) fun i => by simpa using h (i + 1)]
      simp

/-- A failing row makes the whole `mapM` fail. -/
theorem mapM_eq_none {α β : Type} (f : α → Option β) :
    ∀ (l : List α) (x : α), x ∈ l → f x = none → l.mapM f = none := by
  intro l
  induction l with
  | nil =>
    intro x hx
    simp at hx
  | cons a t ih =>
    intro x hx hfx
    rw [List.mapM_cons]
    rcases List.mem_cons.1 hx with rfl | hx
    · rw [hfx]
      rfl
    · cases hfa : f a with
      | none => rfl
      | some b =>
        rw [ih x hx hfx]
        rfl

/-- An out-of-range `i` cannot be an occurrence of a non-empty
separator, so checking occurrences up to the length suffices. -/
theorem no_occurrence_of_ball {sep s : List Char} (hsep : sep ≠ [])
    (h : ∀ i, i ≤ s.length → (s.drop i).take sep.length ≠ sep) :
    ∀ i, (s.drop i).take sep.length ≠ sep := by
  intro i
  by_cases hi : i ≤ s.length
  · exact h i hi
  · rw [List.drop_eq_nil_iff.2 (by omega)]
    simpa using Ne.symm hsep

/-- C10: a row whose sequence does not contain the separator substring
makes `split(sep)[1]` raise `IndexError` — the row aborts the whole
batch rather than being dropped; and whenever the split yields two or
more parts, the first two become the heavy and light sequences. -/
theorem missing_separator_aborts :
    (∀ r : Row, r.separator ≠ [] →
      (∀ i, i ≤ r.sequence.length →
        (r.sequence.drop i).take r.separator.length ≠ r.separator) →
      extractRow r = none ∧ ∀ rows, r ∈ rows → extract rows = none) ∧
    ∀ (r : Row) (p0 p1 : List Char) (ps : List (List Char)),
      pySplit r.sequence r.separator = some (p0 :: p1 :: ps) →
      ∃ e, extractRow r = some e ∧
        e.heavy_sequence = p0 ∧ e.light_sequence = p1 := by
  constructor
  · intro r hsep hocc
    have hnone : extractRow r = none := by
      have hsplit : pySplit r.sequence r.separator = some [r.sequence] := by
        unfold pySplit
        rw [if_neg hsep,
          splitGoF_no_occurrence r.separator r.sequence.length r.sequence []
            (no_occurrence_of_ball hsep hocc)]
        simp
      simp only [extractRow, hsplit]
    exact ⟨hnone, fun rows hr => mapM_eq_none extractRow rows r hr hnone⟩
  · intro r p0 p1 ps hsplit
    exact ⟨_, extractRow_eq hsplit, rfl, rfl⟩

/-- C10 witness: the separator `"<cls>"` does not occur in `"ABC"`, so
the row errors and aborts a batch containing it. -/
theorem missing_separator_aborts_witness :
    extractRow noSepRow = none ∧ extract [noSepRow] = none := by
  obtain ⟨h1, h2⟩ :=
    missing_separator_aborts.1 noSepRow (by decide) (by decide)
  exact ⟨h1, h2 [noSepRow] (List.mem_singleton.2 rfl)⟩

/-- C9: `load_model_and_tokenizer` raises an unsupported-task error
naming the invalid task value for every task other than `"mlm"` or
`"classification"`, and returns a `(model, tokenizer)` pair for the two
recognized values. -/
theorem load_model_task_dispatch (model_path task : String)
    (tokenizer_path : Option String) :
    (task ≠ "mlm" → task ≠ "classification" →
      load_model_and_tokenizer model_path task tokenizer_path =
        .error ("Unsupported task: " ++ task)) ∧
    (task = "mlm" ∨ task = "classification" →
      ∃ m t, load_model_and_tokenizer model_path task tokenizer_path =
        .ok (m, t)) := by
  constructor
  · intro h1 h2
    simp [load_model_and_tokenizer, h1, h2]
  · rintro (rfl | rfl)
    · exact ⟨_, _, rfl⟩
    · exact ⟨.seqClassification model_path,
        AutoTokenizer_from_pretrained (tokenizer_path.getD model_path),
        by simp [load_model_and_tokenizer]⟩

/-- C9 witness: the task `"foo"` is rejected with a message naming it. -/
theorem load_model_task_dispatch_witness :
    load_model_and_tokenizer "some/path" "foo" none =
      .error ("Unsupported task: " ++ "foo") :=
  (load_model_task_dispatch "some/path" "foo" none).1 (by decide) (by decide)

/-- The fixed-point rounding at a non-tie point strictly inside the
half-unit window around `r`. -/
theorem round4_eq (x : ℝ) (r : ℤ) (h1 : (r : ℝ) - 1 / 2 < x * 10000)
    (h2 : x * 10000 < (r : ℝ) + 1 / 2) : round4 x = r := by
  have hfloor : ⌊x * 10000 + 1 / 2⌋ = r := by
    rw [Int.floor_eq_iff]
    exact ⟨by linarith, by linarith⟩
  unfold round4
  rw [hfloor]
  rw [if_neg]
  rintro ⟨he, _⟩
  linarith

theorem fmt4_one : fmt4 1 = "1.0000" := by
  unfold fmt4
  rw [round4_eq 1 10000 (by norm_num) (by norm_num)]
  rfl

theorem fmt4_zero : fmt4 0 = "0.0000" := by
  unfold fmt4
  rw [round4_eq 0 0 (by norm_num) (by norm_num)]
  rfl

theorem fmt4_inv_sqrt_two : fmt4 (1 / Real.sqrt 2) = "0.7071" := by
  have hs : (0 : ℝ) < Real.sqrt 2 := Real.sqrt_pos.2 (by norm_num)
  have hs2 : Real.sqrt 2 ^ 2 = 2 := Real.sq_sqrt (by norm_num)
  unfold fmt4
  rw [round4_eq (1 / Real.sqrt 2) 7071 ?lo ?hi]
  · rfl
  case lo =>
    rw [div_mul_eq_mul_div, one_mul, lt_div_iff₀ hs]
    nlinarith
  case hi =>
    rw [div_mul_eq_mul_div, one_mul, div_lt_iff₀ hs]
    nlinarith

theorem qmean_replicate {n : ℕ} (hn : n ≠ 0) (c : ℚ) :
    qmean (List.replicate n c) = c := by
  unfold qmean
  rw [List.sum_replicate, List.length_replicate, nsmul_eq_mul]
  exact mul_div_cancel_left₀ c (Nat.cast_ne_zero.2 hn)

theorem pmedian_replicate {n : ℕ} (hn : 1 ≤ n) (c : ℚ) :
    pmedian (List.replicate n c) = c := by
  have hsort : (List.replicate n c).insertionSort (· ≤ ·) =
      List.replicate n c := by
    have hperm := List.perm_insertionSort (fun x y : ℚ => x ≤ y) (List.replicate n c)
    refine List.eq_replicate_iff.2 ⟨?_, ?_⟩
    · rw [hperm.length_eq, List.length_replicate]
    · intro b hb
      exact List.eq_of_mem_replicate (hperm.subset hb)
  have hget : ∀ i, i < n → (List.replicate n c).getD i 0 = c := by
    intro i hi
    rw [List.getD_eq_getElem?_getD, List.getElem?_replicate, if_pos hi]
    rfl
  unfold pmedian
  simp only [hsort, List.length_replicate]
  by_cases hpar : n % 2 = 1
  · rw [if_pos hpar, hget (n / 2) (Nat.div_lt_self (by omega) (by omega))]
  · rw [if_neg hpar, hget (n / 2 - 1) (by omega), hget (n / 2) (by omega)]
    ring

theorem sampleVar_replicate {n : ℕ} (hn : n ≠ 0) (c : ℚ) :
    sampleVar (List.replicate n c) = 0 := by
  unfold sampleVar
  rw [qmean_replicate hn, List.map_replicate]
  simp

/-- C3 counterexample: for the group `{0, 2}` pandas' sem (sample
standard deviation over `√n`) is `1`, formatted `"1.0000"`, while the
claim's population-standard-deviation recipe gives `1/√2`, formatted
`"0.7071"`; the emitted cell differs from the claimed one. -/
theorem summary_cell_population_counterexample :
    summaryCell [0, 2] = "1.0000 (± 1.0000)" ∧
      specSummaryCell [0, 2] = "1.0000 (± 0.7071)" ∧
      summaryCell [0, 2] ≠ specSummaryCell [0, 2] := by
  have hmed : ((pmedian [0, 2] : ℚ) : ℝ) = 1 := by
    rw [show pmedian [0, 2] = 1 from by
      norm_num [pmedian, List.insertionSort, List.orderedInsert]]
    norm_num
  have hsem : pdSem [0, 2] = some 1 := by
    unfold pdSem
    rw [if_neg (by norm_num)]
    rw [show ((sampleVar [0, 2] : ℚ) : ℝ) = 2 from by
      rw [show sampleVar [0, 2] = 2 from by norm_num [sampleVar, qmean]]
      norm_num]
    rw [show ((List.length [(0 : ℚ), 2] : ℕ) : ℝ) = 2 from by norm_num]
    rw [div_self (Real.sqrt_ne_zero'.2 (by norm_num))]
  have hspec : specSem [0, 2] = some (1 / Real.sqrt 2) := by
    unfold specSem
    rw [if_neg (by norm_num)]
    rw [show ((popVar [0, 2] : ℚ) : ℝ) = 1 from by
      rw [show popVar [0, 2] = 1 from by norm_num [popVar, qmean]]
      norm_num]
    rw [show ((List.length [(0 : ℚ), 2] : ℕ) : ℝ) = 2 from by norm_num]
    rw [Real.sqrt_one]
  refine ⟨?_, ?_, ?_⟩
  · simp only [summaryCell, format_value, hsem, hmed, fmt4_one]
    rfl
  · simp only [specSummaryCell, format_value, hspec, hmed, fmt4_one,
      fmt4_inv_sqrt_two]
    rfl
  · simp only [summaryCell, specSummaryCell, format_value, hsem, hspec,
      hmed, fmt4_one, fmt4_inv_sqrt_two]
    decide

/-- C3 (amended): each summary cell is the group median formatted to 4
decimal places, followed by `" (± <sem>)"` where sem is the SAMPLE
standard deviation (Bessel's correction, `ddof = 1` — not the
population standard deviation the claim names) divided by `√n`; for
groups of size ≤ 1 the sem is undefined and the bare median is emitted;
for ≥ 2 identical values the cell ends in `"(± 0.0000)"`. -/
theorem summary_cell_formats :
    (∀ xs : List ℚ, xs.length ≤ 1 →
      summaryCell xs = fmt4 ((pmedian xs : ℚ) : ℝ)) ∧
    (∀ xs : List ℚ, 2 ≤ xs.length →
      summaryCell xs = fmt4 ((pmedian xs : ℚ) : ℝ) ++ " (± " ++
        fmt4 (Real.sqrt ((sampleVar xs : ℚ) : ℝ) /
          Real.sqrt (xs.length : ℝ)) ++ ")") ∧
    ∀ (c : ℚ) (n : ℕ), 2 ≤ n →
      summaryCell (List.replicate n c) =
        fmt4 ((c : ℚ) : ℝ) ++ " (± 0.0000)" := by
  refine ⟨?_, ?_, ?_⟩
  · intro xs hlen
    unfold summaryCell pdSem
    rw [if_pos hlen]
    rfl
  · intro xs hlen
    unfold summaryCell pdSem
    rw [if_neg (by omega)]
    rfl
  · intro c n hn
    unfold summaryCell pdSem
    rw [if_neg (by simp only [List.length_replicate]; omega)]
    rw [show ((sampleVar (List.replicate n c) : ℚ) : ℝ) = 0 from by
      rw [sampleVar_replicate (by omega) c]; norm_num]
    rw [Real.sqrt_zero, zero_div]
    show fmt4 ((pmedian (List.replicate n c) : ℚ) : ℝ) ++ " (± " ++
      fmt4 0 ++ ")" = _
    rw [pmedian_replicate (by omega) c, fmt4_zero, String.append_assoc,
      String.append_assoc]
    rfl

/-- C3 witness: two identical values produce `"(± 0.0000)"`. -/
theorem summary_cell_formats_witness :
    summaryCell (List.replicate 2 (5 : ℚ)) =
      fmt4 (((5 : ℚ) : ℚ) : ℝ) ++ " (± 0.0000)" :=
  summary_cell_formats.2.2 5 2 (by omega)

end AbLMEval
